import Mathlib

/-!
Verification development for the TableMatch mobile application.

The definitions below are a shallow embedding of the TypeScript source:

* the BoardGameGeek catalog match resolver (`searchBGG` in
  `src/app/(tabs)/AddGameSession.tsx`, lines 133-226),
* the stale-response request sequencing used by the search widgets,
* the role-toggle handlers of the game-session screens, and
* the `handleAddGame` validation logic of the add-game screen.

JavaScript strings are modelled as `List Char`; `toLowerCase` is modelled
on its ASCII fragment (`Char.toLower`), which agrees with JavaScript on
every ASCII string.  Absent DOM attributes (`getAttribute` returning
`null`) are modelled as `none`.
-/

namespace TableMatch

/-- ASCII model of JavaScript `String.prototype.toLowerCase`. -/
def lowerStr (s : List Char) : List Char := s.map Char.toLower

/-- Model of JavaScript `String.prototype.indexOf`: index of the first
occurrence of `needle` in the haystack, `none` when there is none
(JavaScript returns `-1` there; the resolver only tests `matchIndex >= 0`
so the `Option` carries the same information).  An empty needle is found
at index `0`, as in JavaScript. -/
def strIndexOf (needle : List Char) : List Char → Option Nat
  | [] => if needle = [] then some 0 else none
  | c :: t =>
    if needle.isPrefixOf (c :: t) then some 0
    else (strIndexOf needle t).map (· + 1)

/-- Model of JavaScript `String.prototype.includes`. -/
def containsSub (needle hay : List Char) : Bool :=
  (strIndexOf needle hay).isSome

/-- Blank-string test: JavaScript `!term.trim()` is true exactly when the
string consists of whitespace only. -/
def isBlank (s : List Char) : Bool := s.all Char.isWhitespace

/-- A raw `<item>` record handed to the resolver: `id` attribute,
`name` element's `value` attribute, parsed `yearpublished` value.
`none` models an absent attribute/element (JavaScript `null`). -/
structure RawItem where
  id : Option (List Char)
  name : Option (List Char)
  year : Option Int
deriving DecidableEq

/-- An entry of the internal `results` array built by the resolver's loop
(fields as pushed at `AddGameSession.tsx` lines 190-196). -/
structure ScoredItem where
  id : List Char
  name : List Char
  year : Option Int
  matchIndex : Nat
  titleLength : Nat
deriving DecidableEq

/-- An output record of the resolver after internal ranking fields are
dropped (`.map((r) => ({ id: r.id, name: r.name, year: r.year }))`). -/
structure BGGResult where
  id : List Char
  name : List Char
  year : Option Int
deriving DecidableEq

/-- The candidate loop of `searchBGG` (lines 172-199): skip records whose
`id` or `name` is falsy (`null` or empty), skip names whose lowercasing
contains `"promo"`, keep the rest when the lowercased query occurs in the
lowercased name, recording the match position and the title length. -/
def buildResults (lowerTerm : List Char) : List RawItem → List ScoredItem
  | [] => []
  | item :: rest =>
    let keep : List ScoredItem :=
      match item.id, item.name with
      | some i, some n =>
        if i.isEmpty || n.isEmpty then []
        else
          let lowerName := lowerStr n
          if containsSub ("promo".toList) lowerName then []
          else
            match strIndexOf lowerTerm lowerName with
            | some mi => [⟨i, n, item.year, mi, n.length⟩]
            | none => []
      | _, _ => []
    keep ++ buildResults lowerTerm rest

/-- JavaScript `(year || 0)`: a missing year is treated as `0`. -/
def yearOr0 (y : Option Int) : Int := y.getD 0

/-- The sort comparator of `searchBGG` (lines 206-214): match position
ascending, then publication year descending (missing year as `0`), then
title length ascending. -/
def cmpEntry (a b : ScoredItem) : Int :=
  if a.matchIndex ≠ b.matchIndex then
    (a.matchIndex : Int) - (b.matchIndex : Int)
  else if yearOr0 b.year ≠ yearOr0 a.year then
    yearOr0 b.year - yearOr0 a.year
  else
    (a.titleLength : Int) - (b.titleLength : Int)

/-- `a` may be placed no later than `b` by the comparator. -/
def entryLe (a b : ScoredItem) : Prop := cmpEntry a b ≤ 0

instance : DecidableRel entryLe := fun a b => by
  unfold entryLe; infer_instance

/-- Drop the internal ranking fields (line 216). -/
def stripEntry (e : ScoredItem) : BGGResult := ⟨e.id, e.name, e.year⟩

/-- Filtering, sorting and projecting of an already-fetched candidate
list: the body of `searchBGG` from the `.slice(0, 10)` truncation of the
parsed `<item>` list (line 159) to the `sortedResults` value (line 216).
`Array.prototype.sort` is stable (ECMAScript 2019), so it is modelled by
the stable `List.insertionSort` under the comparator's preorder. -/
def resolveResults (term : List Char) (items : List RawItem) : List BGGResult :=
  (List.insertionSort entryLe
      (buildResults (lowerStr term) (items.take 10))).map stripEntry

/-- The catalog match resolver `searchBGG` (lines 133-226) as a function
of the typed query and of the candidate records parsed from the response:
a blank query clears the result list and returns at once (lines 135-138),
otherwise the candidates are filtered, ranked and projected. -/
def searchBGG (term : List Char) (items : List RawItem) : List BGGResult :=
  if isBlank term then [] else resolveResults term items

/-- The derived `matchIndex` of an output record: position of the first
occurrence of the lowercased query in the lowercased name (`0` when the
query does not occur; for resolver outputs it always occurs). -/
def outMI (term : List Char) (o : BGGResult) : Nat :=
  (strIndexOf (lowerStr term) (lowerStr o.name)).getD 0

/-- The adjacent-pair ordering the specification demands of the output:
`matchIndex` ascending, then year-or-0 descending, then name length
ascending. -/
def adjOk (term : List Char) (a b : BGGResult) : Prop :=
  outMI term a ≤ outMI term b ∧
    (outMI term a = outMI term b →
      yearOr0 b.year ≤ yearOr0 a.year ∧
        (yearOr0 a.year = yearOr0 b.year → a.name.length ≤ b.name.length))

/-- An output record's name contains the query case-insensitively and is
free of the promotional marker. -/
def goodOutput (term : List Char) (o : BGGResult) : Bool :=
  containsSub (lowerStr term) (lowerStr o.name) &&
    !containsSub ("promo".toList) (lowerStr o.name)

/-- Facts true of every entry the candidate loop pushes: the recorded
match index is the real index of the lowercased query in the lowercased
name, the name avoids `"promo"`, id and name are non-empty, and
`titleLength` is the name's length. -/
def entryInv (lowerTerm : List Char) (e : ScoredItem) : Prop :=
  strIndexOf lowerTerm (lowerStr e.name) = some e.matchIndex ∧
    containsSub ("promo".toList) (lowerStr e.name) = false ∧
    e.id ≠ [] ∧ e.name ≠ [] ∧ e.titleLength = e.name.length

/-! ### Role management (game-session screens) -/

/-- The three role list fields of a `gameSessions` document. -/
inductive RoleKey where
  | hosts
  | teachers
  | players
deriving DecidableEq

/-- The role lists of a game-session document; each field is optional in
the `GameSession` type, `none` modelling JavaScript `undefined`. -/
structure SessionRoles where
  hosts : Option (List String)
  teachers : Option (List String)
  players : Option (List String)
deriving DecidableEq

def getRole (s : SessionRoles) : RoleKey → Option (List String)
  | .hosts => s.hosts
  | .teachers => s.teachers
  | .players => s.players

def setRole (s : SessionRoles) : RoleKey → List String → SessionRoles
  | .hosts, l => { s with hosts := some l }
  | .teachers, l => { s with teachers := some l }
  | .players, l => { s with players := some l }

/-- JavaScript `list?.includes(uid)` coerced to a boolean: `undefined` is
falsy. -/
def memRole (o : Option (List String)) (uid : String) : Bool :=
  match o with
  | none => false
  | some l => l.contains uid

/-- The guard of the details screen's `toggleRole` (part_005 lines
131-134): `hosts?.includes(uid) + teachers?.includes(uid) +
players?.includes(uid) === 1`.  Addition binds tighter than `===`;
booleans coerce to `0`/`1`; if any list is `undefined` the sum is `NaN`
and the comparison is `false`. -/
def isLastRole (s : SessionRoles) (uid : String) : Bool :=
  match s.hosts, s.teachers, s.players with
  | some h, some t, some p =>
    ((if h.contains uid then 1 else 0) + (if t.contains uid then 1 else 0) +
        (if p.contains uid then 1 else 0) : Nat) == 1
  | _, _, _ => false

/-- The updated role list (part_005 lines 141-143): remove `uid` when
present, append it otherwise (`session[role] || []` defaults an
`undefined` list to `[]`). -/
def updatedRoleList (cur : Option (List String)) (uid : String) : List String :=
  if memRole cur uid then (cur.getD []).filter (fun i => i != uid)
  else (cur.getD []) ++ [uid]

/-- `toggleRole` of the read-only game-session details screen (part_005
lines 127-154): rejects removing a participant's last role, otherwise
updates the toggled list. -/
def toggleRoleDetails (s : SessionRoles) (uid : String) (r : RoleKey) :
    Except String SessionRoles :=
  if isLastRole s uid && memRole (getRole s r) uid then
    .error "A player must have at least one role."
  else
    .ok (setRole s r (updatedRoleList (getRole s r) uid))

/-- `toggleRole` of the editable details screen
(`src/app/GameSessionDetails/[id].tsx` lines 225-237): the same list
update with no guard of any kind. -/
def toggleRoleEdit (s : SessionRoles) (uid : String) (r : RoleKey) :
    SessionRoles :=
  setRole s r (updatedRoleList (getRole s r) uid)

/-- The participant holds at least one of the three roles. -/
def hasAnyRole (s : SessionRoles) (uid : String) : Bool :=
  memRole s.hosts uid || memRole s.teachers uid || memRole s.players uid

/-! ### Game-session creation (`handleAddGame`, part_001 lines 293-335) -/

/-- The screen state consulted and reset by `handleAddGame`. -/
structure AddGameForm where
  userPresent : Bool
  boardgamegeekID : List Char
  title : List Char
  location : List Char
  players : List String
  minPlayers : Int
  maxPlayers : Int
deriving DecidableEq

/-- What `handleAddGame` did: one of the three early-return alerts, or
the `addDoc` write. -/
inductive AddGameOutcome where
  | errNotAuthenticated
  | errMissingID
  | errMinMaxPlayers
  | written
deriving DecidableEq

/-- `handleAddGame`: guard order as in the source (user, BGG id, player
range), then the document write followed by the form reset (lines
308-330).  Early returns leave the form untouched. -/
def handleAddGame (s : AddGameForm) : AddGameOutcome × AddGameForm :=
  if !s.userPresent then (.errNotAuthenticated, s)
  else if isBlank s.boardgamegeekID then (.errMissingID, s)
  else if s.minPlayers > s.maxPlayers then (.errMinMaxPlayers, s)
  else
    (.written,
      { s with
        title := [], location := [], boardgamegeekID := [], players := [],
        minPlayers := 2, maxPlayers := 4 })

/-! ### Search-widget request sequencing (part_001 lines 140-154 and
`src/app/BGGSearchInput.tsx` lines 21-30) -/

/-- The widget-lifetime request state: `searchRequestIdRef.current` and
the displayed result list. -/
structure SearchWidgetState where
  lastRequestId : Nat
  displayed : List BGGResult
deriving DecidableEq

/-- Dispatching a fetch: `const currentRequestId = ++searchRequestIdRef.current`
assigns the next sequence number and records it as the most recent. -/
def dispatchSearch (s : SearchWidgetState) : Nat × SearchWidgetState :=
  (s.lastRequestId + 1, { s with lastRequestId := s.lastRequestId + 1 })

/-- A fetch completing with `requestId`: `if (currentRequestId !==
searchRequestIdRef.current) return;` discards it unless it is the most
recent dispatch; otherwise the resolved results are displayed. -/
def completeSearch (s : SearchWidgetState) (requestId : Nat)
    (term : List Char) (items : List RawItem) : SearchWidgetState :=
  if requestId ≠ s.lastRequestId then s
  else { s with displayed := resolveResults term items }

instance : IsTotal ScoredItem entryLe :=
  ⟨by
    intro a b
    unfold entryLe cmpEntry
    split_ifs <;> omega⟩

instance : IsTrans ScoredItem entryLe :=
  ⟨by
    intro a b c hab hbc
    unfold entryLe cmpEntry at hab hbc ⊢
    split_ifs at hab hbc ⊢ <;> omega⟩

/-! ### Helper lemmas -/

theorem isPrefixOf_self (l : List Char) : l.isPrefixOf l = true := by
  induction l with
  | nil => rfl
  | cons c t ih => simp [List.isPrefixOf, ih]

theorem strIndexOf_self (s : List Char) : strIndexOf s s = some 0 := by
  cases s with
  | nil => simp [strIndexOf]
  | cons c t => simp [strIndexOf, isPrefixOf_self]

theorem entryInv_of_mem {lowerTerm : List Char} :
    ∀ {items : List RawItem} {e : ScoredItem},
      e ∈ buildResults lowerTerm items → entryInv lowerTerm e := by
  intro items
  induction items with
  | nil => intro e h; simp [buildResults] at h
  | cons it rest ih =>
    intro e h
    rcases it with ⟨oid, oname, oyear⟩
    rcases oid with _ | i <;> rcases oname with _ | n <;>
      simp only [buildResults, List.mem_append] at h
    · exact ih (by simpa using h)
    · exact ih (by simpa using h)
    · exact ih (by simpa using h)
    · rcases h with h1 | h2
      · split_ifs at h1 with hie hpromo
        · simp at h1
        · simp at h1
        · split at h1
          next mi hmi =>
            simp only [List.mem_singleton] at h1
            subst h1
            refine ⟨hmi, ?_, ?_, ?_, rfl⟩
            · simpa using hpromo
            · intro hni; simp at hni; rw [hni] at hie; simp at hie
            · intro hnn; simp at hnn; rw [hnn] at hie; simp at hie
          next => simp at h1
      · exact ih h2

theorem adj_of_entryLe {term : List Char} {a b : ScoredItem}
    (ha : entryInv (lowerStr term) a) (hb : entryInv (lowerStr term) b)
    (hab : entryLe a b) : adjOk term (stripEntry a) (stripEntry b) := by
  obtain ⟨ha1, -, -, -, ha5⟩ := ha
  obtain ⟨hb1, -, -, -, hb5⟩ := hb
  unfold entryLe cmpEntry at hab
  unfold adjOk outMI stripEntry
  simp only [ha1, hb1, Option.getD_some]
  rw [← ha5, ← hb5]
  split_ifs at hab <;>
    exact ⟨by omega, fun hmi => ⟨by omega, fun hyr => by omega⟩⟩

theorem pairwise_adjOk (term : List Char) (items : List RawItem) :
    (searchBGG term items).Pairwise (adjOk term) := by
  unfold searchBGG
  split
  · simp
  · unfold resolveResults
    rw [List.pairwise_map]
    refine (List.sorted_insertionSort entryLe
        (buildResults (lowerStr term) (items.take 10))).imp_of_mem ?_
    intro a b hma hmb hab
    exact adj_of_entryLe
      (entryInv_of_mem ((List.mem_insertionSort entryLe).mp hma))
      (entryInv_of_mem ((List.mem_insertionSort entryLe).mp hmb)) hab

/-! ### Claims -/

/-- C1: every item the resolver outputs has a name containing the query
case-insensitively and free of the substring "promo" case-insensitively;
candidates failing either condition never reach the output. -/
theorem c1_output_matches_query_no_promo (term : List Char)
    (items : List RawItem) :
    (searchBGG term items).all (goodOutput term) = true := by
  rw [List.all_eq_true]
  intro o ho
  unfold searchBGG at ho
  split at ho
  · simp at ho
  · unfold resolveResults at ho
    rcases List.mem_map.mp ho with ⟨e, he, rfl⟩
    obtain ⟨h1, h2, -, -, -⟩ :=
      entryInv_of_mem ((List.mem_insertionSort entryLe).mp he)
    simp only [goodOutput, stripEntry]
    rw [h2]
    simp [containsSub, h1]

/-- C2: the resolver's output is sorted so that each adjacent pair is
ordered by match index ascending, then year-or-0 descending, then name
length ascending. -/
theorem c2_output_sorted (term : List Char) (items : List RawItem) :
    (searchBGG term items).Chain' (adjOk term) :=
  (pairwise_adjOk term items).chain'

/-- C3 counterexample: on the specification's own scenario the resolver
does not return the claimed sequence (the year tie-break orders id 2,
published 1997, before id 1, published 1995). -/
theorem c3_catan_scenario_cex :
    searchBGG "catan".toList
        [⟨some "1".toList, some "Catan".toList, some 1995⟩,
         ⟨some "2".toList, some "Catan: Seafarers".toList, some 1997⟩,
         ⟨some "3".toList, some "Catan Promo Card".toList, some 2010⟩] ≠
      [⟨"1".toList, "Catan".toList, some 1995⟩,
       ⟨"2".toList, "Catan: Seafarers".toList, some 1997⟩] := by
  decide

/-- C3 amended: on the scenario's input the resolver drops id 3 as
promotional and returns id 2 before id 1, because the publication-year
descending tie-break applies before name length when the match indices
tie at 0. -/
theorem c3_catan_scenario :
    searchBGG "catan".toList
        [⟨some "1".toList, some "Catan".toList, some 1995⟩,
         ⟨some "2".toList, some "Catan: Seafarers".toList, some 1997⟩,
         ⟨some "3".toList, some "Catan Promo Card".toList, some 2010⟩] =
      [⟨"2".toList, "Catan: Seafarers".toList, some 1997⟩,
       ⟨"1".toList, "Catan".toList, some 1995⟩] := by
  decide

/-- C4 counterexample: an output pair with tied match index in which the
earlier item has no year and the later one has the known year 0 — a
candidate with a known year is NOT always ordered before one with an
unknown year, because a known year `0` ties with the missing-year
default. -/
theorem c4_known_year_cex :
    searchBGG "a".toList
        [⟨some "1".toList, some "ab".toList, none⟩,
         ⟨some "2".toList, some "abc".toList, some 0⟩] =
      [⟨"1".toList, "ab".toList, none⟩, ⟨"2".toList, "abc".toList, some 0⟩] ∧
    outMI "a".toList ⟨"1".toList, "ab".toList, none⟩ =
      outMI "a".toList ⟨"2".toList, "abc".toList, some 0⟩ ∧
    (⟨"1".toList, "ab".toList, none⟩ : BGGResult).year = none ∧
    (⟨"2".toList, "abc".toList, some 0⟩ : BGGResult).year = some 0 := by
  decide

/-- C4 amended: for output pairs with tied match index the ordering is by
year-or-0 descending — so a later item with a known year has that year
at most 0 when the earlier item's year is unknown (known positive years
do outrank unknown ones), and among two known years the larger comes
first. -/
theorem c4_year_tiebreak {term : List Char} {items : List RawItem}
    {a b : BGGResult} (hsub : [a, b].Sublist (searchBGG term items))
    (hmi : outMI term a = outMI term b) :
    yearOr0 b.year ≤ yearOr0 a.year ∧
      (∀ yb, a.year = none → b.year = some yb → yb ≤ 0) ∧
      (∀ ya yb, a.year = some ya → b.year = some yb → yb ≤ ya) := by
  have hp : List.Pairwise (adjOk term) [a, b] :=
    List.Pairwise.sublist hsub (pairwise_adjOk term items)
  have hadj : adjOk term a b :=
    List.rel_of_pairwise_cons hp (List.mem_singleton_self b)
  have hy := (hadj.2 hmi).1
  refine ⟨hy, ?_, ?_⟩
  · intro yb ha hb; rw [ha, hb] at hy; simpa [yearOr0] using hy
  · intro ya yb ha hb; rw [ha, hb] at hy; simpa [yearOr0] using hy

/-- C4 witness: the amended theorem applied to a concrete tied pair with
known years 2000 and 1999. -/
theorem c4_year_tiebreak_witness :
    outMI "a".toList (⟨"1".toList, "ab".toList, some 2000⟩ : BGGResult) =
      outMI "a".toList (⟨"2".toList, "abc".toList, some 1999⟩ : BGGResult) ∧
    yearOr0 (some 1999) ≤ yearOr0 (some 2000) := by
  have heq : searchBGG "a".toList
      [⟨some "1".toList, some "ab".toList, some 2000⟩,
       ⟨some "2".toList, some "abc".toList, some 1999⟩] =
      [⟨"1".toList, "ab".toList, some 2000⟩,
       ⟨"2".toList, "abc".toList, some 1999⟩] := by decide
  refine ⟨by decide, ?_⟩
  exact (c4_year_tiebreak (by rw [heq]) (by decide)).1

/-- C5: the sort is stable — two filtered entries tying on all three
sort keys appear in the output in the order the filtering step produced
them. -/
theorem c5_stable_sort {term : List Char} {items : List RawItem}
    {a b : ScoredItem} (hblank : isBlank term = false)
    (hsub : [a, b].Sublist (buildResults (lowerStr term) (items.take 10)))
    (hmi : a.matchIndex = b.matchIndex)
    (hyr : yearOr0 a.year = yearOr0 b.year)
    (hlen : a.titleLength = b.titleLength) :
    [stripEntry a, stripEntry b].Sublist (searchBGG term items) := by
  have hle : entryLe a b := by unfold entryLe cmpEntry; split_ifs <;> omega
  have h3 := List.Sublist.map stripEntry
    (List.pair_sublist_insertionSort hle hsub)
  simpa [searchBGG, hblank, resolveResults] using h3

/-- C5 witness: the stability theorem applied to two concrete candidates
with identical names "ab" (hence tied on every key) and distinct ids. -/
theorem c5_stable_sort_witness :
    isBlank "a".toList = false ∧
    [(⟨"1".toList, "ab".toList, none, 0, 2⟩ : ScoredItem),
     ⟨"2".toList, "ab".toList, none, 0, 2⟩].Sublist
      (buildResults (lowerStr "a".toList)
        (([⟨some "1".toList, some "ab".toList, none⟩,
           ⟨some "2".toList, some "ab".toList, none⟩] : List RawItem).take 10)) ∧
    [stripEntry ⟨"1".toList, "ab".toList, none, 0, 2⟩,
     stripEntry ⟨"2".toList, "ab".toList, none, 0, 2⟩].Sublist
      (searchBGG "a".toList
        [⟨some "1".toList, some "ab".toList, none⟩,
         ⟨some "2".toList, some "ab".toList, none⟩]) := by
  have hb : buildResults (lowerStr "a".toList)
      (([⟨some "1".toList, some "ab".toList, none⟩,
         ⟨some "2".toList, some "ab".toList, none⟩] : List RawItem).take 10) =
      [⟨"1".toList, "ab".toList, none, 0, 2⟩,
       ⟨"2".toList, "ab".toList, none, 0, 2⟩] := by decide
  refine ⟨by decide, by rw [hb], ?_⟩
  exact c5_stable_sort (by decide) (by rw [hb]) rfl rfl rfl

/-- C6 counterexample: a single candidate whose name exactly matches the
non-blank query "promo" yields an EMPTY output, not a singleton, because
the promotional filter drops it. -/
theorem c6_exact_match_cex :
    isBlank "promo".toList = false ∧
    searchBGG "promo".toList
        [⟨some "1".toList, some "promo".toList, none⟩] = [] := by
  exact ⟨by decide, by decide⟩

/-- C6 amended: a blank query yields an empty result for any candidates;
an empty candidate list yields an empty result for any query; and a
single candidate with a non-empty id whose name exactly matches a
non-blank query yields a singleton output provided the name does not
contain "promo" case-insensitively. -/
theorem c6_boundary :
    (∀ (term : List Char) (items : List RawItem),
        isBlank term = true → searchBGG term items = []) ∧
    (∀ term : List Char, searchBGG term [] = []) ∧
    (∀ (i term : List Char) (y : Option Int), isBlank term = false →
        i ≠ [] → containsSub ("promo".toList) (lowerStr term) = false →
        searchBGG term [⟨some i, some term, y⟩] = [⟨i, term, y⟩]) := by
  refine ⟨fun term items hb => by simp [searchBGG, hb], ?_, ?_⟩
  · intro term
    unfold searchBGG
    split
    · rfl
    · simp [resolveResults, buildResults]
  · intro i term y hb hi hpromo
    have hterm : term ≠ [] := by
      intro h; subst h; simp [isBlank] at hb
    have hie : i.isEmpty = false := by
      cases i with
      | nil => exact absurd rfl hi
      | cons c cs => rfl
    have hte : term.isEmpty = false := by
      cases term with
      | nil => exact absurd rfl hterm
      | cons c cs => rfl
    have hpromo' : containsSub ['p', 'r', 'o', 'm', 'o'] (lowerStr term) = false :=
      hpromo
    simp [searchBGG, hb, resolveResults, buildResults, hie, hte, hpromo,
      hpromo', strIndexOf_self, stripEntry]

/-- C6 witness: the amended theorem applied to a blank query and to a
concrete exactly-matching candidate. -/
theorem c6_boundary_witness :
    searchBGG " ".toList [⟨some "1".toList, some " ".toList, none⟩] = [] ∧
    searchBGG "catan".toList
        [⟨some "7".toList, some "catan".toList, some 1995⟩] =
      [⟨"7".toList, "catan".toList, some 1995⟩] := by
  refine ⟨c6_boundary.1 " ".toList _ (by decide), ?_⟩
  exact c6_boundary.2.2 "7".toList "catan".toList (some 1995) (by decide)
    (by decide) (by decide)

/-- C10: a raw candidate with an absent id, or an absent or empty name,
is silently skipped by the candidate loop while the remaining candidates
are still processed, and consequently every output item has a non-empty
id and a non-empty name. -/
theorem c10_malformed_records :
    (∀ (lowerTerm : List Char) (x : RawItem) (xs : List RawItem),
        x.id = none ∨ x.name = none ∨ x.name = some [] →
        buildResults lowerTerm (x :: xs) = buildResults lowerTerm xs) ∧
    (∀ (term : List Char) (items : List RawItem),
        (searchBGG term items).all
          (fun o => !o.id.isEmpty && !o.name.isEmpty) = true) := by
  constructor
  · intro lowerTerm x xs hbad
    rcases x with ⟨oid, oname, oyear⟩
    simp only at hbad
    rcases hbad with h | h | h
    · subst h; rcases oname with _ | n <;> simp [buildResults]
    · subst h; rcases oid with _ | i <;> simp [buildResults]
    · subst h; rcases oid with _ | i <;> simp [buildResults]
  · intro term items
    rw [List.all_eq_true]
    intro o ho
    unfold searchBGG at ho
    split at ho
    · simp at ho
    · unfold resolveResults at ho
      rcases List.mem_map.mp ho with ⟨e, he, rfl⟩
      obtain ⟨-, -, h3, h4, -⟩ :=
        entryInv_of_mem ((List.mem_insertionSort entryLe).mp he)
      cases hid : e.id with
      | nil => exact absurd hid h3
      | cons c cs =>
        cases hname : e.name with
        | nil => exact absurd hname h4
        | cons d ds => simp [stripEntry, hid, hname]

/-- C10 witness: the skip equation applied to a concrete record with an
absent id. -/
theorem c10_malformed_records_witness :
    buildResults "a".toList [⟨none, some "ab".toList, none⟩] =
      buildResults "a".toList [] :=
  c10_malformed_records.1 "a".toList ⟨none, some "ab".toList, none⟩ []
    (Or.inl rfl)

theorem contains_append_singleton (l : List String) (u : String) :
    (l ++ [u]).contains u = true :=
  List.contains_iff_exists_mem_beq.mpr ⟨u, by simp, by simp⟩

theorem hasAnyRole_setRole_of_contains {s : SessionRoles} {r : RoleKey}
    {l : List String} {uid : String} (hl : l.contains uid = true) :
    hasAnyRole (setRole s r l) uid = true := by
  have hm : uid ∈ l := by simpa using hl
  cases r <;> simp [setRole, hasAnyRole, memRole, hm]

/-- C7 counterexample: the editable details screen's `toggleRole` removes
a participant's only remaining role with no error and no guard — the
"at least one role" invariant is not preserved by every role-toggle
operation. -/
theorem c7_last_role_cex :
    hasAnyRole ⟨some [], some [], some ["u"]⟩ "u" = true ∧
    toggleRoleEdit ⟨some [], some [], some ["u"]⟩ "u" .players =
      ⟨some [], some [], some []⟩ ∧
    hasAnyRole ⟨some [], some [], some []⟩ "u" = false := by
  exact ⟨by decide, by decide, by decide⟩

/-- C7 amended: only the read-only details screen's `toggleRole` enforces
the invariant, and its guard is effective when all three role lists are
present on the session document: a toggle removing the participant's only
role is rejected with the error message and any accepted toggle leaves
the participant with at least one role.  The editable details screen's
and the add-game screen's toggles enforce nothing. -/
theorem c7_role_invariant (s : SessionRoles) (uid : String) (r : RoleKey)
    (h t p : List String) (hh : s.hosts = some h) (ht : s.teachers = some t)
    (hp : s.players = some p) :
    (isLastRole s uid = true → memRole (getRole s r) uid = true →
      toggleRoleDetails s uid r =
        .error "A player must have at least one role.") ∧
    (∀ s', toggleRoleDetails s uid r = .ok s' → hasAnyRole s' uid = true) := by
  obtain ⟨oh, ot, op⟩ := s
  dsimp only at hh ht hp
  subst hh; subst ht; subst hp
  constructor
  · intro h1 h2
    simp [toggleRoleDetails, h1, h2]
  · intro s' hok
    by_cases hmem :
        memRole (getRole ⟨some h, some t, some p⟩ r) uid = true
    · have hguard : isLastRole ⟨some h, some t, some p⟩ uid = false := by
        cases hg : isLastRole ⟨some h, some t, some p⟩ uid
        · rfl
        · exfalso; simp [toggleRoleDetails, hg, hmem] at hok
      rw [toggleRoleDetails, hguard] at hok
      simp only [Bool.false_and, Bool.false_eq_true, if_false,
        Except.ok.injEq] at hok
      subst hok
      have hcount :
          ¬((if h.contains uid then 1 else 0) +
              (if t.contains uid then 1 else 0) +
              (if p.contains uid then (1 : Nat) else 0) = 1) := by
        simpa [isLastRole, beq_eq_false_iff_ne] using hguard
      cases r with
      | hosts =>
        have hc : h.contains uid = true := by
          simpa [getRole, memRole] using hmem
        rw [hc] at hcount
        cases htb : t.contains uid
        · cases hpb : p.contains uid
          · rw [htb, hpb] at hcount; simp at hcount
          · have hpm : uid ∈ p := by simpa using hpb
            simp [setRole, hasAnyRole, memRole, hpm]
        · have htm : uid ∈ t := by simpa using htb
          simp [setRole, hasAnyRole, memRole, htm]
      | teachers =>
        have hc : t.contains uid = true := by
          simpa [getRole, memRole] using hmem
        rw [hc] at hcount
        cases hhb : h.contains uid
        · cases hpb : p.contains uid
          · rw [hhb, hpb] at hcount; simp at hcount
          · have hpm : uid ∈ p := by simpa using hpb
            simp [setRole, hasAnyRole, memRole, hpm]
        · have hhm : uid ∈ h := by simpa using hhb
          simp [setRole, hasAnyRole, memRole, hhm]
      | players =>
        have hc : p.contains uid = true := by
          simpa [getRole, memRole] using hmem
        rw [hc] at hcount
        cases hhb : h.contains uid
        · cases htb : t.contains uid
          · rw [hhb, htb] at hcount; simp at hcount
          · have htm : uid ∈ t := by simpa using htb
            simp [setRole, hasAnyRole, memRole, htm]
        · have hhm : uid ∈ h := by simpa using hhb
          simp [setRole, hasAnyRole, memRole, hhm]
    · have hmem' : memRole (getRole ⟨some h, some t, some p⟩ r) uid = false :=
        Bool.not_eq_true _ ▸ (by simpa using hmem)
      rw [toggleRoleDetails, hmem'] at hok
      simp only [Bool.and_false, Bool.false_eq_true, if_false,
        Except.ok.injEq] at hok
      subst hok
      apply hasAnyRole_setRole_of_contains
      rw [updatedRoleList, hmem']
      simp only [Bool.false_eq_true, if_false]
      exact contains_append_singleton _ uid

/-- C7 witness: the rejection branch of the amended theorem at a concrete
session in which "u" holds only the player role. -/
theorem c7_role_invariant_witness :
    toggleRoleDetails ⟨some [], some [], some ["u"]⟩ "u" .players =
      .error "A player must have at least one role." :=
  (c7_role_invariant ⟨some [], some [], some ["u"]⟩ "u" .players [] [] ["u"]
      rfl rfl rfl).1 (by decide) (by decide)

/-- C8: when the minimum participant count exceeds the maximum,
`handleAddGame` returns before the document write — no write outcome, the
form state is unchanged, and (when the earlier guards pass) the surfaced
error is the min/max validation alert. -/
theorem c8_minmax_no_write (s : AddGameForm)
    (hmm : s.minPlayers > s.maxPlayers) :
    (handleAddGame s).1 ≠ .written ∧ (handleAddGame s).2 = s ∧
      (s.userPresent = true → isBlank s.boardgamegeekID = false →
        (handleAddGame s).1 = .errMinMaxPlayers) := by
  unfold handleAddGame
  split_ifs with h1 h2
  · exact ⟨fun hw => AddGameOutcome.noConfusion hw, rfl,
      fun hu _ => by simp [hu] at h1⟩
  · exact ⟨fun hw => AddGameOutcome.noConfusion hw, rfl,
      fun _ hb => by simp [hb] at h2⟩
  · exact ⟨fun hw => AddGameOutcome.noConfusion hw, rfl, fun _ _ => rfl⟩

/-- C8 witness: the theorem applied to a concrete authenticated form with
minimum 5 and maximum 2. -/
theorem c8_minmax_no_write_witness :
    ((5 : Int) > 2) ∧
    (handleAddGame ⟨true, "42".toList, [], [], [], 5, 2⟩).1 =
      .errMinMaxPlayers ∧
    (handleAddGame ⟨true, "42".toList, [], [], [], 5, 2⟩).2 =
      ⟨true, "42".toList, [], [], [], 5, 2⟩ := by
  refine ⟨by decide, ?_, ?_⟩
  · exact (c8_minmax_no_write ⟨true, "42".toList, [], [], [], 5, 2⟩
      (by decide)).2.2 rfl (by decide)
  · exact (c8_minmax_no_write ⟨true, "42".toList, [], [], [], 5, 2⟩
      (by decide)).2.1

/-- C9: dispatches receive strictly increasing sequence numbers, a
completion updates the display exactly when its number is the most
recent dispatch, and in the two-dispatch race the late completion of the
first request is discarded silently, leaving the second request's
resolution displayed. -/
theorem c9_stale_response_discard (s : SearchWidgetState) (reqId : Nat)
    (t1 t2 : List Char) (i1 i2 : List RawItem) :
    (dispatchSearch s).1 = s.lastRequestId + 1 ∧
    completeSearch s reqId t1 i1 =
      (if reqId = s.lastRequestId then
        { s with displayed := resolveResults t1 i1 } else s) ∧
    (dispatchSearch s).1 < (dispatchSearch (dispatchSearch s).2).1 ∧
    (completeSearch (dispatchSearch (dispatchSearch s).2).2
        (dispatchSearch (dispatchSearch s).2).1 t2 i2).displayed =
      resolveResults t2 i2 ∧
    completeSearch
        (completeSearch (dispatchSearch (dispatchSearch s).2).2
          (dispatchSearch (dispatchSearch s).2).1 t2 i2)
        (dispatchSearch s).1 t1 i1 =
      completeSearch (dispatchSearch (dispatchSearch s).2).2
        (dispatchSearch (dispatchSearch s).2).1 t2 i2 := by
  refine ⟨rfl, ?_, ?_, ?_, ?_⟩
  · by_cases hb : reqId = s.lastRequestId <;> simp [completeSearch, hb]
  · simp [dispatchSearch]
  · simp [completeSearch, dispatchSearch]
  · have hne : ¬(s.lastRequestId + 1 = s.lastRequestId + 1 + 1) := by omega
    simp [completeSearch, dispatchSearch, hne]

end TableMatch
